import Mathlib

/-!
Verification development for the opsagent workflow engine.

The definitions below are a shallow embedding of the Python sources
`src/opsagent/workflows/dynamic_workflow.py`,
`src/opsagent/workflows/triage_workflow.py` and
`src/opsagent/agents/dynamic_triage_agent.py`.

Python `dict[int, ...]` values are embedded as association lists with
dict-assignment semantics (`mapInsert` overwrites in place, else appends);
Python unbounded `int` is embedded as `Int`; worker and model collaborators
are embedded as explicit oracle functions.
-/

namespace OpsAgent

/-- `PlanStep` (dynamic_triage_agent.py): one step of the execution plan.
The `step` field is a plain Python `int`; the model declares no bound. -/
structure PlanStep where
  step : Int
  agent : String
  question : String
deriving DecidableEq, Repr

/-- `ExecutionResult` (dynamic_workflow.py): result of one agent execution. -/
structure ExecutionResult where
  agent : String
  question : String
  response : String
deriving DecidableEq, Repr

/-- Embedding of Python `dict[int, list[ExecutionResult]]`. -/
abbrev ResultsMap := List (Int × List ExecutionResult)

/-- Dict lookup: `m.get(k)` returning `none` for a missing key. -/
def lookupM : ResultsMap → Int → Option (List ExecutionResult)
  | [], _ => none
  | (k, v) :: rest, key => if key = k then some v else lookupM rest key

/-- Dict assignment `m[k] = v`: overwrite in place if present, else append. -/
def mapInsert : ResultsMap → Int → List ExecutionResult → ResultsMap
  | [], k, v => [(k, v)]
  | (k', v') :: rest, k, v =>
      if k = k' then (k, v) :: rest else (k', v') :: mapInsert rest k v

/-- `max(m.keys()) if m else 0` (dynamic_workflow.py line 418). -/
def maxKey (m : ResultsMap) : Int :=
  match m.map (fun p => p.1) with
  | [] => 0
  | k :: ks => ks.foldl max k

/-- Worker collaborators: `self._agents[task.agent].run(message)`, embedded as a
total oracle from agent key and message text to response text. -/
abbrev Agents := String → String → String

/-- One formatted block of `_run_plan`'s context building (lines 481-485). -/
def contextBlock (r : ExecutionResult) : String :=
  "---\nAgent: " ++ r.agent ++ "\nQuestion: " ++ r.question ++
    "\nResponse: " ++ r.response ++ "\n---"

/-- Context string of `_run_plan` (lines 476-486): empty when the previous
step produced no results (Python truthiness of `prev_results`). -/
def buildContext (prev : List ExecutionResult) : String :=
  if prev.isEmpty then ""
  else "Previous step results:\n" ++ String.intercalate "\n" (prev.map contextBlock)

/-- `all_results.get(prev_step) or existing_results.get(prev_step)` followed by
the `if prev_results:` truthiness test (lines 477-478), flattened to a list:
the empty list stands for both `None` and `[]`, which Python treats alike. -/
def prevResultsFor (allr existing : ResultsMap) (prev : Int) : List ExecutionResult :=
  match lookupM allr prev with
  | some l => if l.isEmpty then (lookupM existing prev).getD [] else l
  | none => (lookupM existing prev).getD []

/-- Message construction of `run_single_task` (lines 503-505): the context
prefixed to the question when the context string is non-empty. -/
def taskMessage (context : String) (t : PlanStep) : String :=
  if context = "" then t.question else context ++ "\n\nYour task: " ++ t.question

/-- `run_single_task` (lines 499-515) with an infallible worker oracle. -/
def runSingleTask (agents : Agents) (context : String) (t : PlanStep) : ExecutionResult :=
  { agent := t.agent
    question := t.question
    response := agents t.agent (taskMessage context t) }

/-- `_execute_step_parallel` (lines 494-519): `asyncio.gather` preserves the
order of its arguments in the returned list. -/
def executeStepParallel (agents : Agents) (tasks : List PlanStep) (context : String) :
    List ExecutionResult :=
  tasks.map (runSingleTask agents context)

/-- One recorded worker call: which agent was invoked and with what message. -/
structure AgentCall where
  agent : String
  message : String
deriving DecidableEq, Repr

/-- Insert into a sorted duplicate-free list of step numbers. -/
def insertSortedDedup (n : Int) : List Int → List Int
  | [] => [n]
  | m :: rest =>
      if n < m then n :: m :: rest
      else if n = m then m :: rest
      else m :: insertSortedDedup n rest

/-- `sorted(steps_grouped.keys())` (line 471): the distinct step numbers of the
plan in ascending order. -/
def stepKeys (plan : List PlanStep) : List Int :=
  (plan.map (fun t => t.step)).foldr insertSortedDedup []

/-- The tasks grouped under step number `n` (lines 466-468): `defaultdict`
grouping preserves plan order within a step. -/
def tasksFor (plan : List PlanStep) (n : Int) : List PlanStep :=
  plan.filter (fun t => t.step = n)

/-- The step loop of `_run_plan` (lines 470-491), also recording every worker
call made, in order. -/
def runPlanAux (agents : Agents) (plan : List PlanStep) (existing : ResultsMap) :
    List Int → ResultsMap → ResultsMap × List AgentCall
  | [], acc => (acc, [])
  | n :: rest, acc =>
      let tasks := tasksFor plan n
      let context := buildContext (prevResultsFor acc existing (n - 1))
      let stepResults := executeStepParallel agents tasks context
      let calls := tasks.map (fun t => AgentCall.mk t.agent (taskMessage context t))
      let r := runPlanAux agents plan existing rest (mapInsert acc n stepResults)
      (r.1, calls ++ r.2)

/-- `_run_plan` (lines 457-492): returns the per-step results map and the
ordered log of worker calls. -/
def runPlan (agents : Agents) (plan : List PlanStep) (existing : ResultsMap) :
    ResultsMap × List AgentCall :=
  runPlanAux agents plan existing (stepKeys plan) []

/-- The merge of `execute_new_plan` (lines 417-421): offset every new step
number by `max_step` and write it into a copy of the previous map, in the
insertion (ascending-step) order of `new_results.items()`. -/
def mergeOffset (m : Int) (newResults : ResultsMap) (previous : ResultsMap) : ResultsMap :=
  newResults.foldl (fun acc p => mapInsert acc (m + p.1) p.2) previous

/-- `execute_new_plan` (lines 406-433): run the retry plan with the previous
results as `existing_results`, then merge with offset step numbers. Returns
the merged map that is stored back into shared state. -/
def executeNewPlanMerged (agents : Agents) (newPlan : List PlanStep)
    (previous : ResultsMap) : ResultsMap :=
  mergeOffset (maxKey previous) (runPlan agents newPlan previous).1 previous

/-- `ReviewOutput` (review_agent.py / parsed in ReviewExecutor.review): the
structured verdict of the review collaborator. `confidence` is a Python float;
no claim computes with it, so it is carried as an inert `Rat`. -/
structure ReviewOutput where
  is_complete : Bool
  summary : String
  missing_aspects : List String
  suggested_approach : String
  confidence : Rat
deriving DecidableEq, Repr

/-- `ReviewDecision` (dynamic_workflow.py lines 100-110). -/
structure ReviewDecision where
  is_complete : Bool
  summary : String
  missing_aspects : List String
  suggested_approach : String
  confidence : Rat
  execution_results : ResultsMap
  original_query : String
deriving DecidableEq, Repr

/-- `ReviewModeOutput` (dynamic_triage_agent.py lines 51-64): the structured
decision of the review-mode triage collaborator, also the payload of
`TriageReviewResult` (dynamic_workflow.py lines 65-71). -/
structure ReviewModeOutput where
  accept_review : Bool
  new_plan : List PlanStep
  rejection_reason : String
deriving DecidableEq, Repr

/-- `ReviewModeRequest` (dynamic_workflow.py lines 129-135). -/
structure ReviewModeRequest where
  review_feedback : ReviewDecision
  previous_results : ResultsMap
  original_query : String
deriving DecidableEq, Repr

/-- The retry-tracking shared state (`retry_count`, `is_retry`) initialised by
`store_query` (lines 167-169) and updated by `route_review`. -/
structure RetryState where
  retry_count : Int
  is_retry : Bool
deriving DecidableEq, Repr

/-- The shared-state update of `route_review` (lines 598-613): increment the
retry counter and set the retry flag only when the decision is incomplete and
`retry_count < 1`. -/
def route_reviewUpdate (decision : ReviewDecision) (st : RetryState) : RetryState :=
  if !decision.is_complete && st.retry_count < 1 then
    { retry_count := st.retry_count + 1, is_retry := true }
  else st

/-- `select_review_outcome` (lines 616-629). `target_ids` order is
`[aggregator, triage_review_bridge]`; any other arity raises in Python and is
unreachable in the built workflow. -/
def select_review_outcome (decision : ReviewDecision) (targetIds : List String) :
    List String :=
  match targetIds with
  | [aggregatorId, triageId] =>
      if decision.is_complete then [aggregatorId] else [triageId]
  | _ => []

/-- `triage_review_bridge` (lines 633-658): forwards the review decision to the
review-mode triage executor. The source has an `if retry_count > 1` branch
commented "Force completion", but both branches send the identical message. -/
def triage_review_bridge (decision : ReviewDecision) (retryCount : Int) :
    ReviewModeRequest :=
  if retryCount > 1 then
    { review_feedback := decision
      previous_results := decision.execution_results
      original_query := decision.original_query }
  else
    { review_feedback := decision
      previous_results := decision.execution_results
      original_query := decision.original_query }

/-- `select_triage_review_outcome` (lines 662-674). `target_ids` order is
`[orchestrator, output_existing]`. -/
def select_triage_review_outcome (triage : ReviewModeOutput) (targetIds : List String) :
    List String :=
  match targetIds with
  | [orchestratorId, outputId] =>
      if triage.accept_review && !triage.new_plan.isEmpty then [orchestratorId]
      else [outputId]
  | _ => []

/-- Python `str.title()` over a character list: uppercase a letter after a
non-letter, lowercase a letter after a letter. The flag is whether the
previous character was alphabetic. -/
def titleChars : List Char → Bool → List Char
  | [], _ => []
  | c :: cs, prevAlpha =>
      (if c.isAlpha then (if prevAlpha then c.toLower else c.toUpper) else c) ::
        titleChars cs c.isAlpha

/-- `result.agent.replace("_", " ").title()` (line 719). -/
def humanizeAgent (s : String) : String :=
  String.mk (titleChars ((s.replace "_" " ").toList) false)

/-- `_format_final_output` (lines 711-727). -/
def formatFinalOutputSections (results : ResultsMap) : List String :=
  (results.map (fun p => p.1)).foldr insertSortedDedup [] |>.flatMap
    (fun n => ((lookupM results n).getD []).map
      (fun r => "## " ++ humanizeAgent r.agent ++ "\n" ++ r.response))

/-- `_format_final_output` (lines 711-727): one section per result in sorted
step order, joined by a separator; a non-empty `note` is appended. -/
def formatFinalOutput (results : ResultsMap) (note : String) : String :=
  let output := String.intercalate "\n\n---\n\n" (formatFinalOutputSections results)
  if note = "" then output
  else output ++ "\n\n---\n\n*Note: " ++ note ++ "*"

/-- `FinalAggregator.aggregate` (lines 697-708): yield the summary if truthy
(non-empty), else the formatted results with no note. -/
def finalAggregate (decision : ReviewDecision) : String :=
  if decision.summary ≠ "" then decision.summary
  else formatFinalOutput decision.execution_results ""

/-- State of one run of the review loop. `cycles` is instrumentation, not
source state: it counts Execute transitions taken out of RetryPlanning. -/
structure LoopState where
  retry_count : Int
  is_retry : Bool
  results : ResultsMap
  query : String
  cycles : Nat
deriving DecidableEq, Repr

/-- Outcome of a run: a yielded terminal text, or fuel exhaustion of the
embedding (the source loop has no intrinsic bound). -/
inductive RunOutcome where
  | output (text : String)
  | stalled
deriving DecidableEq, Repr

/-- The Review → routing → retry loop of the dynamic workflow
(`ReviewExecutor.review`, `route_review`, `select_review_outcome`,
`triage_review_bridge`, `ReviewModeTriageExecutor`,
`select_triage_review_outcome`, `DynamicOrchestrator.execute_new_plan`,
`FinalAggregator.aggregate`, `output_existing`). The review and review-mode
triage collaborators are oracles indexed by the review round. -/
def reviewLoop (agents : Agents) (revOracle : Nat → ReviewOutput)
    (triOracle : Nat → ReviewModeOutput) :
    Nat → Nat → LoopState → RunOutcome × LoopState
  | 0, _, st => (RunOutcome.stalled, st)
  | fuel + 1, round, st =>
      let out := revOracle round
      let decision : ReviewDecision :=
        { is_complete := out.is_complete
          summary := out.summary
          missing_aspects := out.missing_aspects
          suggested_approach := out.suggested_approach
          confidence := out.confidence
          execution_results := st.results
          original_query := st.query }
      let rst := route_reviewUpdate decision
        { retry_count := st.retry_count, is_retry := st.is_retry }
      let st1 : LoopState := { st with retry_count := rst.retry_count, is_retry := rst.is_retry }
      if decision.is_complete then
        (RunOutcome.output (finalAggregate decision), st1)
      else
        let tri := triOracle round
        if tri.accept_review && !tri.new_plan.isEmpty then
          let merged := executeNewPlanMerged agents tri.new_plan st1.results
          reviewLoop agents revOracle triOracle fuel (round + 1)
            { st1 with results := merged, cycles := st1.cycles + 1 }
        else
          (RunOutcome.output (formatFinalOutput st1.results tri.rejection_reason), st1)

/-- A run entering the Execute path: `store_query` initialised
`retry_count = 0` and `is_retry = False`, the orchestrator runs the plan with
no existing results (`_execute`, lines 435-455), then review begins. -/
def runFromExecute (agents : Agents) (plan : List PlanStep) (query : String)
    (revOracle : Nat → ReviewOutput) (triOracle : Nat → ReviewModeOutput)
    (fuel : Nat) : RunOutcome × LoopState :=
  reviewLoop agents revOracle triOracle fuel 0
    { retry_count := 0
      is_retry := false
      results := (runPlan agents plan []).1
      query := query
      cycles := 0 }

/-! Fallible workers: `agent.run` may raise `TransportError`/`TimeoutError`.
`Except String` carries the exception detail. -/

/-- Fallible worker collaborators. -/
abbrev FAgents := String → String → Except String String

/-- `run_single_task` (lines 499-515) with a fallible worker: an exception in
the `await agent.run(...)` call propagates out of the coroutine. -/
def runSingleTaskE (agents : FAgents) (context : String) (t : PlanStep) :
    Except String ExecutionResult :=
  match agents t.agent (taskMessage context t) with
  | Except.ok resp => Except.ok { agent := t.agent, question := t.question, response := resp }
  | Except.error e => Except.error e

/-- `asyncio.gather(*tasks)` without `return_exceptions`: if any task raises,
awaiting the gather raises that exception and no result list is produced
(embedded deterministically as the first failing task in argument order). -/
def gatherE : List (Except String ExecutionResult) → Except String (List ExecutionResult)
  | [] => Except.ok []
  | Except.error e :: _ => Except.error e
  | Except.ok r :: rest =>
      match gatherE rest with
      | Except.ok rs => Except.ok (r :: rs)
      | Except.error e => Except.error e

/-- `_execute_step_parallel` (lines 494-519) with fallible workers: the bare
`asyncio.gather` on line 518 propagates any task exception. -/
def executeStepParallelE (agents : FAgents) (tasks : List PlanStep) (context : String) :
    Except String (List ExecutionResult) :=
  gatherE (tasks.map (runSingleTaskE agents context))

/-! The triage (fan-out) workflow, `triage_workflow.py`. -/

/-- `TaskAssignment` (triage_workflow.py lines 38-42). -/
structure TaskAssignment where
  question : String
  agent : String
deriving DecidableEq, Repr

/-- `TriageResult` (triage_workflow.py lines 54-61). -/
structure TriageResult where
  should_reject : Bool
  reject_reason : String
  tasks : List TaskAssignment
  original_query : String
deriving DecidableEq, Repr

/-- `AgentResponse` (triage_workflow.py lines 22-27). -/
structure AgentResponse where
  executor_id : String
  text : String
deriving DecidableEq, Repr

/-- The question-combining logic of `FilteredAgentExecutor.handle`
(lines 190-195), applied to a non-empty question list. -/
def combineQuestions (questions : List String) : String :=
  if questions.length > 1 then
    String.intercalate "\n" (questions.map (fun q => "- " ++ q))
  else questions.headD ""

/-- `FilteredAgentExecutor.handle` (lines 171-208): the list of messages the
handler sends for one incoming triage result. Both branches send exactly one
`AgentResponse`; an agent with no matching tasks sends an empty text. -/
def filteredHandle (agentFn : String → String) (agentKey execId : String)
    (triage : TriageResult) : List AgentResponse :=
  let questions := (triage.tasks.filter (fun t => t.agent = agentKey)).map
    (fun t => t.question)
  if questions.isEmpty then
    [{ executor_id := execId, text := "" }]
  else
    [{ executor_id := execId, text := agentFn (combineQuestions questions) }]

/-- The fan-out of `create_triage_workflow` (lines 297-307): the dispatcher
broadcasts one triage result to the three filtered executors, and the fan-in
edge collects their responses for the aggregator. -/
def triageFanOut (snFn laFn shFn : String → String) (triage : TriageResult) :
    List AgentResponse :=
  filteredHandle snFn "servicenow" "servicenow_executor" triage ++
    filteredHandle laFn "log_analytics" "log_analytics_executor" triage ++
      filteredHandle shFn "service_health" "service_health_executor" triage

/-! Input processing, `store_query`. The executor is duplicated verbatim in
`dynamic_workflow.py` (lines 139-174) and `triage_workflow.py` (lines 75-108);
one embedding covers both. -/

/-- Message role. -/
inductive Role where
  | user
  | assistant
deriving DecidableEq, Repr

/-- `ChatMessage` as used by `store_query`. -/
structure ChatMessage where
  role : Role
  text : String
deriving DecidableEq, Repr

/-- `MessageData` (raw Flask message). -/
structure MessageData where
  role : String
  text : String
deriving DecidableEq, Repr

/-- `WorkflowInput`. -/
structure WorkflowInput where
  query : String
  messages : List MessageData
deriving DecidableEq, Repr

/-- `store_query` lines 145-154: build the chat history from `messages` when
non-empty (Python truthiness of the list), else a single user message from
`query`. Only the exact role string `"user"` maps to `Role.USER`. -/
def toChatMessages (input : WorkflowInput) : List ChatMessage :=
  if !input.messages.isEmpty then
    input.messages.map (fun m =>
      { role := if m.role = "user" then Role.user else Role.assistant
        text := m.text })
  else [{ role := Role.user, text := input.query }]

/-- `store_query` lines 159-164: scan the history in reverse for the first
user-role message; `latest_query` stays `""` when none exists. -/
def latestUserQuery (msgs : List ChatMessage) : String :=
  match msgs.reverse.find? (fun m => m.role = Role.user) with
  | some m => m.text
  | none => ""

/-- The value `store_query` writes to the shared-state key `original_query`. -/
def storeQueryOriginal (input : WorkflowInput) : String :=
  latestUserQuery (toChatMessages input)

/-! ### Lemmas about the map embedding -/

lemma lookupM_mapInsert_self (m : ResultsMap) (k : Int) (v : List ExecutionResult) :
    lookupM (mapInsert m k v) k = some v := by
  induction m with
  | nil => simp [mapInsert, lookupM]
  | cons p rest ih =>
    by_cases h : k = p.1
    · simp [mapInsert, h, lookupM]
    · simp [mapInsert, h, lookupM, ih]

lemma lookupM_mapInsert_ne (m : ResultsMap) (k k' : Int) (v : List ExecutionResult)
    (h : k' ≠ k) : lookupM (mapInsert m k v) k' = lookupM m k' := by
  induction m with
  | nil => simp [mapInsert, lookupM, h]
  | cons p rest ih =>
    by_cases hk : k = p.1
    · subst hk
      simp [mapInsert, lookupM, h]
    · by_cases hk' : k' = p.1
      · simp [mapInsert, hk, lookupM, hk']
      · simp [mapInsert, hk, lookupM, hk', ih]

lemma mem_mapInsert {p : Int × List ExecutionResult} {m : ResultsMap} {k : Int}
    {v : List ExecutionResult} (h : p ∈ mapInsert m k v) : p = (k, v) ∨ p ∈ m := by
  induction m with
  | nil => simpa [mapInsert] using h
  | cons q rest ih =>
    by_cases hk : k = q.1
    · simp only [mapInsert, if_pos hk] at h
      rcases List.mem_cons.mp h with h | h
      · exact Or.inl h
      · exact Or.inr (List.mem_cons_of_mem _ h)
    · simp only [mapInsert, if_neg hk] at h
      rcases List.mem_cons.mp h with h | h
      · exact Or.inr (h ▸ List.mem_cons_self _ _)
      · rcases ih h with h | h
        · exact Or.inl h
        · exact Or.inr (List.mem_cons_of_mem _ h)

lemma lookupM_eq_some_mem {m : ResultsMap} {k : Int} {v : List ExecutionResult}
    (h : lookupM m k = some v) : (k, v) ∈ m := by
  induction m with
  | nil => simp [lookupM] at h
  | cons p rest ih =>
    by_cases hk : k = p.1
    · simp only [lookupM, if_pos hk] at h
      have hp : (k, v) = p := by
        cases h
        rw [hk]
      rw [hp]
      exact List.mem_cons_self _ _
    · simp only [lookupM, if_neg hk] at h
      exact List.mem_cons_of_mem _ (ih h)

lemma maxKey_ge {m : ResultsMap} {p : Int × List ExecutionResult} (h : p ∈ m) :
    p.1 ≤ maxKey m := by
  have main : ∀ (l : List Int) (a x : Int), (x ≤ a ∨ x ∈ l) → x ≤ l.foldl max a := by
    intro l
    induction l with
    | nil =>
      intro a x hx
      rcases hx with hx | hx
      · simpa using hx
      · simp at hx
    | cons b rest ih =>
      intro a x hx
      simp only [List.foldl_cons]
      rcases hx with hx | hx
      · exact ih _ x (Or.inl (le_trans hx (le_max_left a b)))
      · rcases List.mem_cons.mp hx with hx | hx
        · exact ih _ x (Or.inl (hx ▸ le_max_right a b))
        · exact ih _ x (Or.inr hx)
  unfold maxKey
  cases hm : m.map (fun p => p.1) with
  | nil =>
    cases m with
    | nil => simp at h
    | cons q rest => simp at hm
  | cons a l =>
    have hx : p.1 ∈ m.map (fun p => p.1) := List.mem_map.mpr ⟨p, h, rfl⟩
    rw [hm] at hx
    rcases List.mem_cons.mp hx with hx | hx
    · exact main l a p.1 (Or.inl (le_of_eq hx))
    · exact main l a p.1 (Or.inr hx)

/-! ### Lemmas about sorted step keys -/

lemma insertSortedDedup_cons_lt {n m : Int} (rest : List Int) (h : n < m) :
    insertSortedDedup n (m :: rest) = n :: m :: rest := by
  unfold insertSortedDedup
  rw [if_pos h]

lemma insertSortedDedup_cons_eq {n m : Int} (rest : List Int) (h1 : ¬n < m) (h2 : n = m) :
    insertSortedDedup n (m :: rest) = m :: rest := by
  unfold insertSortedDedup
  rw [if_neg h1, if_pos h2]

lemma insertSortedDedup_cons_gt {n m : Int} (rest : List Int) (h1 : ¬n < m) (h2 : ¬n = m) :
    insertSortedDedup n (m :: rest) = m :: insertSortedDedup n rest := by
  simp only [insertSortedDedup]
  rw [if_neg h1, if_neg h2]

lemma mem_insertSortedDedup {a n : Int} {l : List Int} :
    a ∈ insertSortedDedup n l ↔ a = n ∨ a ∈ l := by
  induction l with
  | nil => simp [insertSortedDedup]
  | cons m rest ih =>
    by_cases h1 : n < m
    · rw [insertSortedDedup_cons_lt rest h1]
      simp only [List.mem_cons]
    · by_cases h2 : n = m
      · rw [insertSortedDedup_cons_eq rest h1 h2]
        subst h2
        constructor
        · intro h
          exact Or.inr h
        · intro h
          rcases h with h | h
          · exact h ▸ List.mem_cons_self _ _
          · exact h
      · rw [insertSortedDedup_cons_gt rest h1 h2]
        simp only [List.mem_cons, ih]
        tauto

lemma sorted_insertSortedDedup {n : Int} {l : List Int} (h : l.Sorted (· < ·)) :
    (insertSortedDedup n l).Sorted (· < ·) := by
  induction l with
  | nil => simp [insertSortedDedup]
  | cons m rest ih =>
    rw [List.sorted_cons] at h
    obtain ⟨hm, hrest⟩ := h
    by_cases h1 : n < m
    · rw [insertSortedDedup_cons_lt rest h1, List.sorted_cons]
      refine ⟨?_, List.sorted_cons.mpr ⟨hm, hrest⟩⟩
      intro b hb
      rcases List.mem_cons.mp hb with hb | hb
      · omega
      · have := hm b hb
        omega
    · by_cases h2 : n = m
      · rw [insertSortedDedup_cons_eq rest h1 h2]
        exact List.sorted_cons.mpr ⟨hm, hrest⟩
      · rw [insertSortedDedup_cons_gt rest h1 h2, List.sorted_cons]
        refine ⟨?_, ih hrest⟩
        intro b hb
        rcases mem_insertSortedDedup.mp hb with hb | hb
        · omega
        · exact hm b hb

lemma stepKeys_sorted (plan : List PlanStep) : (stepKeys plan).Sorted (· < ·) := by
  unfold stepKeys
  induction plan.map (fun t => t.step) with
  | nil => simp
  | cons a l ih => exact sorted_insertSortedDedup ih

lemma mem_stepKeys {n : Int} {plan : List PlanStep} :
    n ∈ stepKeys plan ↔ n ∈ plan.map (fun t => t.step) := by
  unfold stepKeys
  induction plan.map (fun t => t.step) with
  | nil => simp
  | cons a l ih =>
    simp only [List.foldr_cons, mem_insertSortedDedup, List.mem_cons, ih]

/-! ### Lemmas about `_run_plan` -/

lemma prevResultsFor_congr {m1 m2 e : ResultsMap} {k : Int}
    (h : lookupM m1 k = lookupM m2 k) : prevResultsFor m1 e k = prevResultsFor m2 e k := by
  unfold prevResultsFor
  rw [h]

lemma runPlanAux_fst_lookup_not_mem (agents : Agents) (plan : List PlanStep)
    (existing : ResultsMap) :
    ∀ (ks : List Int) (acc : ResultsMap) (k : Int), k ∉ ks →
      lookupM (runPlanAux agents plan existing ks acc).1 k = lookupM acc k := by
  intro ks
  induction ks with
  | nil =>
    intro acc k _
    rfl
  | cons n rest ih =>
    intro acc k hk
    have hkn : k ≠ n := fun h => hk (h ▸ List.mem_cons_self _ _)
    have hkr : k ∉ rest := fun h => hk (List.mem_cons_of_mem _ h)
    simp only [runPlanAux]
    rw [ih _ k hkr, lookupM_mapInsert_ne _ _ _ _ hkn]

lemma runPlanAux_fst_mem (agents : Agents) (plan : List PlanStep) (existing : ResultsMap) :
    ∀ (ks : List Int) (acc : ResultsMap) (p : Int × List ExecutionResult),
      p ∈ (runPlanAux agents plan existing ks acc).1 → p.1 ∈ ks ∨ p ∈ acc := by
  intro ks
  induction ks with
  | nil =>
    intro acc p h
    exact Or.inr h
  | cons n rest ih =>
    intro acc p h
    simp only [runPlanAux] at h
    rcases ih _ p h with h | h
    · exact Or.inl (List.mem_cons_of_mem _ h)
    · rcases mem_mapInsert h with h | h
      · exact Or.inl (by rw [h]; exact List.mem_cons_self _ _)
      · exact Or.inr h

lemma runPlanAux_fst_lookup_isSome (agents : Agents) (plan : List PlanStep)
    (existing : ResultsMap) :
    ∀ (ks : List Int) (acc : ResultsMap) (k : Int),
      k ∈ ks ∨ (lookupM acc k).isSome →
      (lookupM (runPlanAux agents plan existing ks acc).1 k).isSome := by
  intro ks
  induction ks with
  | nil =>
    intro acc k hk
    rcases hk with hk | hk
    · simp at hk
    · exact hk
  | cons n rest ih =>
    intro acc k hk
    simp only [runPlanAux]
    apply ih
    by_cases hkn : k = n
    · right
      rw [hkn, lookupM_mapInsert_self]
      rfl
    · rcases hk with hk | hk
      · rcases List.mem_cons.mp hk with hk | hk
        · exact absurd hk hkn
        · exact Or.inl hk
      · right
        rw [lookupM_mapInsert_ne _ _ _ _ hkn]
        exact hk

lemma nodup_keys_mapInsert {m : ResultsMap} {k : Int} {v : List ExecutionResult}
    (h : (m.map (fun p => p.1)).Nodup) : ((mapInsert m k v).map (fun p => p.1)).Nodup := by
  induction m with
  | nil => simp [mapInsert]
  | cons p rest ih =>
    rw [List.map_cons, List.nodup_cons] at h
    obtain ⟨hp, hrest⟩ := h
    by_cases hk : k = p.1
    · simp only [mapInsert, if_pos hk, List.map_cons, List.nodup_cons]
      exact ⟨hk ▸ hp, hrest⟩
    · simp only [mapInsert, if_neg hk, List.map_cons, List.nodup_cons]
      refine ⟨?_, ih hrest⟩
      intro hmem
      rcases List.mem_map.mp hmem with ⟨q, hq, hq1⟩
      rcases mem_mapInsert hq with hq | hq
      · rw [hq] at hq1
        exact hk (by rw [← hq1])
      · exact hp (List.mem_map.mpr ⟨q, hq, hq1⟩)

lemma runPlanAux_fst_nodup_keys (agents : Agents) (plan : List PlanStep)
    (existing : ResultsMap) :
    ∀ (ks : List Int) (acc : ResultsMap), (acc.map (fun p => p.1)).Nodup →
      ((runPlanAux agents plan existing ks acc).1.map (fun p => p.1)).Nodup := by
  intro ks
  induction ks with
  | nil =>
    intro acc h
    exact h
  | cons n rest ih =>
    intro acc h
    simp only [runPlanAux]
    exact ih _ (nodup_keys_mapInsert h)

/-- Main characterization of the `_run_plan` step loop: for a strictly sorted
key list, the worker-call log is the in-order concatenation over the step
numbers of one batch per step, and the context each batch saw can be read off
the final results map at key `step − 1` (earlier steps are never overwritten,
because later keys are strictly larger). -/
lemma runPlanAux_calls (agents : Agents) (plan : List PlanStep) (existing : ResultsMap) :
    ∀ (ks : List Int) (acc : ResultsMap), ks.Sorted (· < ·) →
      (runPlanAux agents plan existing ks acc).2 =
        ks.flatMap (fun n =>
          (tasksFor plan n).map (fun t =>
            AgentCall.mk t.agent (taskMessage
              (buildContext (prevResultsFor (runPlanAux agents plan existing ks acc).1
                existing (n - 1))) t))) := by
  intro ks
  induction ks with
  | nil =>
    intro acc _
    rfl
  | cons n rest ih =>
    intro acc hs
    rw [List.sorted_cons] at hs
    obtain ⟨hn, hrest⟩ := hs
    have hnot : (n - 1) ∉ rest := by
      intro hmem
      have := hn _ hmem
      omega
    simp only [runPlanAux, List.flatMap_cons]
    congr 1
    · have hlk : lookupM
          (runPlanAux agents plan existing rest
            (mapInsert acc n (executeStepParallel agents (tasksFor plan n)
              (buildContext (prevResultsFor acc existing (n - 1)))))).1 (n - 1)
          = lookupM acc (n - 1) := by
        rw [runPlanAux_fst_lookup_not_mem agents plan existing rest _ _ hnot]
        exact lookupM_mapInsert_ne _ _ _ _ (by omega)
      rw [prevResultsFor_congr (e := existing) hlk]
    · exact ih _ hrest

/-! ### Lemmas about the retry merge -/

lemma mergeOffset_lookup_preserve (m : Int) :
    ∀ (newResults : ResultsMap) (previous : ResultsMap) (k : Int),
      (∀ p ∈ newResults, k ≠ m + p.1) →
      lookupM (mergeOffset m newResults previous) k = lookupM previous k := by
  intro newResults
  induction newResults with
  | nil =>
    intro previous k _
    rfl
  | cons p rest ih =>
    intro previous k hk
    show lookupM (mergeOffset m rest (mapInsert previous (m + p.1) p.2)) k = _
    rw [ih _ k (fun q hq => hk q (List.mem_cons_of_mem _ hq))]
    exact lookupM_mapInsert_ne _ _ _ _ (hk p (List.mem_cons_self _ _))

lemma mergeOffset_lookup_offset (m : Int) :
    ∀ (newResults : ResultsMap) (previous : ResultsMap) (s : Int)
      (v : List ExecutionResult),
      (newResults.map (fun p => p.1)).Nodup → lookupM newResults s = some v →
      lookupM (mergeOffset m newResults previous) (m + s) = some v := by
  intro newResults
  induction newResults with
  | nil =>
    intro previous s v _ h
    simp [lookupM] at h
  | cons p rest ih =>
    intro previous s v hnd h
    rw [List.map_cons, List.nodup_cons] at hnd
    obtain ⟨hp, hrest⟩ := hnd
    by_cases hs : s = p.1
    · have hv : p.2 = v := by
        simp only [lookupM, if_pos hs] at h
        exact Option.some.inj h
      show lookupM (mergeOffset m rest (mapInsert previous (m + p.1) p.2)) (m + s) = some v
      rw [hs]
      rw [mergeOffset_lookup_preserve m rest _ (m + p.1) ?_]
      · rw [← hv]
        exact lookupM_mapInsert_self _ _ _
      · intro q hq heq
        exact hp (List.mem_map.mpr ⟨q, hq, by omega⟩)
    · simp only [lookupM, if_neg hs] at h
      show lookupM (mergeOffset m rest (mapInsert previous (m + p.1) p.2)) (m + s) = some v
      exact ih _ s v hrest h

/-! ### Lemmas about the review loop -/

lemma route_reviewUpdate_bounds (d : ReviewDecision) (st : RetryState)
    (h0 : 0 ≤ st.retry_count) (h1 : st.retry_count ≤ 1) :
    0 ≤ (route_reviewUpdate d st).retry_count ∧
      (route_reviewUpdate d st).retry_count ≤ 1 := by
  unfold route_reviewUpdate
  split
  · next h =>
    simp only [Bool.and_eq_true, decide_eq_true_eq] at h
    constructor <;> simp <;> omega
  · exact ⟨h0, h1⟩

lemma reviewLoop_retry_bounds (agents : Agents) (revO : Nat → ReviewOutput)
    (triO : Nat → ReviewModeOutput) :
    ∀ (fuel round : Nat) (st : LoopState), 0 ≤ st.retry_count → st.retry_count ≤ 1 →
      0 ≤ (reviewLoop agents revO triO fuel round st).2.retry_count ∧
        (reviewLoop agents revO triO fuel round st).2.retry_count ≤ 1 := by
  intro fuel
  induction fuel with
  | zero =>
    intro round st h0 h1
    exact ⟨h0, h1⟩
  | succ fuel ih =>
    intro round st h0 h1
    have hb := route_reviewUpdate_bounds
      { is_complete := (revO round).is_complete
        summary := (revO round).summary
        missing_aspects := (revO round).missing_aspects
        suggested_approach := (revO round).suggested_approach
        confidence := (revO round).confidence
        execution_results := st.results
        original_query := st.query }
      { retry_count := st.retry_count, is_retry := st.is_retry } h0 h1
    simp only [reviewLoop]
    split
    · exact hb
    · split
      · exact ih _ _ hb.1 hb.2
      · exact hb

/-! ### Context formatting lemmas -/

lemma buildContext_eq_empty_iff (prev : List ExecutionResult) :
    (buildContext prev = "") ↔ prev.isEmpty = true := by
  unfold buildContext
  by_cases h : prev.isEmpty
  · simp [h]
  · simp only [h, if_neg, Bool.false_eq_true, iff_false]
    intro heq
    have := congrArg String.length heq
    simp [String.length_append] at this
    exact absurd this.1 (by decide)

lemma taskMessage_buildContext (prev : List ExecutionResult) (t : PlanStep) :
    taskMessage (buildContext prev) t =
      if prev.isEmpty then t.question
      else buildContext prev ++ "\n\nYour task: " ++ t.question := by
  unfold taskMessage
  by_cases h : prev.isEmpty
  · rw [if_pos ((buildContext_eq_empty_iff prev).mpr h), if_pos h]
  · rw [if_neg (fun heq => h ((buildContext_eq_empty_iff prev).mp heq)), if_neg h]

lemma prevResultsFor_nil_existing (allr : ResultsMap) (k : Int) :
    prevResultsFor allr [] k = (lookupM allr k).getD [] := by
  unfold prevResultsFor
  cases h : lookupM allr k with
  | none => rfl
  | some l => cases l <;> simp [lookupM]

/-! ### Claim theorems -/

/-- C3: the claim states that a transport/timeout failure of one task is
caught at that task's boundary and converted to a placeholder
ExecutionResult, the siblings are not aborted, and the step join completes
with one result per task. The code (`_execute_step_parallel`, bare
`asyncio.gather`) instead propagates the exception out of the step: on the
failing input below — two tasks in one step, the first raising
`TransportError` and the second succeeding — the batch produces no result
list at all, so no placeholder exists and the sibling's answer is lost. -/
theorem C3_step_batch_aborts_on_task_failure :
    executeStepParallelE
      (fun a _ => if a = "servicenow" then Except.error "TransportError: connection lost"
        else Except.ok "ok")
      [{ step := 1, agent := "servicenow", question := "q1" },
       { step := 1, agent := "log_analytics", question := "q2" }] ""
      = Except.error "TransportError: connection lost" := rfl

lemma isEmpty_map {α β : Type} (f : α → β) (l : List α) :
    (l.map f).isEmpty = l.isEmpty := by
  cases l <;> rfl

lemma filteredHandle_eq (agentFn : String → String) (agentKey execId : String)
    (triage : TriageResult) :
    filteredHandle agentFn agentKey execId triage =
      [ { executor_id := execId
          text := if (triage.tasks.filter (fun t => t.agent = agentKey)).isEmpty
            then ""
            else agentFn (combineQuestions ((triage.tasks.filter
              (fun t => t.agent = agentKey)).map (fun t => t.question))) } ] := by
  unfold filteredHandle
  simp only [isEmpty_map]
  by_cases h : (triage.tasks.filter (fun t => t.agent = agentKey)).isEmpty
  · rw [if_pos h, if_pos h]
  · rw [if_neg h, if_neg h]

/-- C7: in the triage fan-out workflow, each of the three filtered agent
executors emits exactly one AgentResponse per dispatched triage result — with
empty text when the plan assigns it no tasks — so the fan-in join receives
exactly one response per target. The right-hand side exhibits the full
response list: one entry per target, in fan-out order, whose text is empty
precisely when that target's task filter is empty. -/
theorem C7_fanout_one_response_per_target (snFn laFn shFn : String → String)
    (triage : TriageResult) :
    triageFanOut snFn laFn shFn triage =
      [ { executor_id := "servicenow_executor"
          text := if (triage.tasks.filter (fun t => t.agent = "servicenow")).isEmpty
            then ""
            else snFn (combineQuestions ((triage.tasks.filter
              (fun t => t.agent = "servicenow")).map (fun t => t.question))) },
        { executor_id := "log_analytics_executor"
          text := if (triage.tasks.filter (fun t => t.agent = "log_analytics")).isEmpty
            then ""
            else laFn (combineQuestions ((triage.tasks.filter
              (fun t => t.agent = "log_analytics")).map (fun t => t.question))) },
        { executor_id := "service_health_executor"
          text := if (triage.tasks.filter (fun t => t.agent = "service_health")).isEmpty
            then ""
            else shFn (combineQuestions ((triage.tasks.filter
              (fun t => t.agent = "service_health")).map (fun t => t.question))) } ] := by
  unfold triageFanOut
  rw [filteredHandle_eq, filteredHandle_eq, filteredHandle_eq]
  rfl

/-- C8: the final aggregator yields the decision's summary when it is
non-empty (Python truthiness of `decision.summary`), else the formatted
per-target sections of the decision's execution results with no note; and on
Scenario A — a one-step plan with review returning `is_complete = true` and
`summary = "done"` — the run yields exactly `"done"`. -/
theorem C8_aggregate_summary (d : ReviewDecision) :
    finalAggregate d =
      (if d.summary = "" then formatFinalOutput d.execution_results "" else d.summary)
    ∧ (runFromExecute (fun _ _ => "resp")
        [{ step := 1, agent := "servicenow", question := "X" }] "q"
        (fun _ =>
          { is_complete := true, summary := "done", missing_aspects := [],
            suggested_approach := "", confidence := 1 })
        (fun _ => { accept_review := false, new_plan := [], rejection_reason := "" }) 1).1
      = RunOutcome.output "done" := by
  constructor
  · unfold finalAggregate
    by_cases h : d.summary = "" <;> simp [h]
  · rfl

/-- C10: `store_query` sets the shared-state key `original_query` to the text
of the most recent user-role message of the supplied history, to
`input.query` when the messages list is empty (it then synthesizes a single
user message from the query), and to `""` when the list is non-empty but
contains no message with role `"user"`. -/
theorem C10_store_query_original (input : WorkflowInput) :
    storeQueryOriginal input =
      if input.messages.isEmpty then input.query
      else
        match input.messages.reverse.find? (fun m => m.role = "user") with
        | some m => m.text
        | none => "" := by
  unfold storeQueryOriginal toChatMessages latestUserQuery
  by_cases h : input.messages.isEmpty
  · simp [h, List.find?]
  · have h' : input.messages.isEmpty = false := by
      simpa using h
    rw [if_neg h]
    simp only [h', Bool.not_false, if_true]
    rw [← List.map_reverse, List.find?_map]
    have hp : ((fun m : ChatMessage => decide (m.role = Role.user)) ∘
        (fun m : MessageData =>
          ({ role := if m.role = "user" then Role.user else Role.assistant
             text := m.text } : ChatMessage)))
        = (fun m : MessageData => decide (m.role = "user")) := by
      funext m
      by_cases hm : m.role = "user" <;> simp [hm]
    rw [hp]
    cases input.messages.reverse.find? (fun m => decide (m.role = "user")) with
    | none => rfl
    | some m => rfl

/-- C1 (counterexample): the claim asserts that for any sequence of review
decisions a run contains at most one Execute→Review→RetryPlanning→Execute
cycle. With a review collaborator that answers "incomplete" twice before
accepting, and a review-mode triage collaborator that always accepts with a
non-empty plan, the run completes normally and takes two such cycles
(`cycles = 2`): the routing never forces the terminal path, so the cycle
bound is not structural. -/
theorem C1_two_cycles_counterexample :
    ((runFromExecute (fun _ _ => "resp")
        [{ step := 1, agent := "servicenow", question := "q" }] "query"
        (fun i =>
          if i < 2 then
            { is_complete := false, summary := "", missing_aspects := [],
              suggested_approach := "", confidence := 0 }
          else
            { is_complete := true, summary := "done", missing_aspects := [],
              suggested_approach := "", confidence := 1 })
        (fun _ =>
          { accept_review := true,
            new_plan := [{ step := 1, agent := "servicenow", question := "more" }],
            rejection_reason := "" }) 5).2.cycles = 2)
    ∧ ((runFromExecute (fun _ _ => "resp")
        [{ step := 1, agent := "servicenow", question := "q" }] "query"
        (fun i =>
          if i < 2 then
            { is_complete := false, summary := "", missing_aspects := [],
              suggested_approach := "", confidence := 0 }
          else
            { is_complete := true, summary := "done", missing_aspects := [],
              suggested_approach := "", confidence := 1 })
        (fun _ =>
          { accept_review := true,
            new_plan := [{ step := 1, agent := "servicenow", question := "more" }],
            rejection_reason := "" }) 5).1 = RunOutcome.output "done") :=
  ⟨rfl, rfl⟩

/-- C1 (amended): the first half of the claim holds structurally — starting
from `store_query`'s initialisation `retry_count = 0`, for every sequence of
review and review-mode-triage decisions and any number of loop rounds, the
shared-state `retry_count` stays in `{0, 1}` (`route_review` increments it
only when it is still `< 1`). The at-most-one-cycle half is refuted by the
counterexample: the number of cycles is bounded only by the collaborators'
decisions, not by the routing. -/
theorem C1_retry_count_invariant (agents : Agents) (plan : List PlanStep)
    (query : String) (revOracle : Nat → ReviewOutput)
    (triOracle : Nat → ReviewModeOutput) (fuel : Nat) :
    (runFromExecute agents plan query revOracle triOracle fuel).2.retry_count = 0 ∨
      (runFromExecute agents plan query revOracle triOracle fuel).2.retry_count = 1 := by
  have h := reviewLoop_retry_bounds agents revOracle triOracle fuel 0
    { retry_count := 0, is_retry := false, results := (runPlan agents plan []).1,
      query := query, cycles := 0 } (by norm_num) (by norm_num)
  unfold runFromExecute
  omega

/-- C2: the claim asserts that once `retry_count` has reached 1, the routing
after Review forces the terminal path regardless of `is_complete`. In the
code, `select_review_outcome` never reads `retry_count` and routes every
incomplete decision to the retry bridge; `triage_review_bridge`'s "force
completion" branch sends the identical message as its other branch; and from
a state with `retry_count = 1`, one incomplete review plus an accepting
triage answer produces a further Execute (the instrumented cycle counter
advances from 1 to 2). -/
theorem C2_routing_lacks_structural_cap :
    (∀ (d : ReviewDecision) (n : Int), triage_review_bridge d n = triage_review_bridge d 0)
    ∧ select_review_outcome
        { is_complete := false, summary := "", missing_aspects := ["gap"],
          suggested_approach := "", confidence := 0, execution_results := [],
          original_query := "q" }
        ["final_aggregator", "triage_review_bridge"] = ["triage_review_bridge"]
    ∧ (reviewLoop (fun _ _ => "r")
        (fun _ =>
          { is_complete := false, summary := "", missing_aspects := [],
            suggested_approach := "", confidence := 0 })
        (fun _ =>
          { accept_review := true,
            new_plan := [{ step := 1, agent := "servicenow", question := "q2" }],
            rejection_reason := "" }) 1 0
        { retry_count := 1, is_retry := true,
          results := [(1, [{ agent := "servicenow", question := "q1", response := "r1" }])],
          query := "q", cycles := 1 }).2.cycles = 2 := by
  refine ⟨?_, rfl, rfl⟩
  intro d n
  unfold triage_review_bridge
  split <;> rfl

/-- C4: after a retry, the merged `execution_results` map contains, for each
distinct step number `s` of the retry plan, that step's results under key
`maxKey previous + s`, where `maxKey` of an empty previous map is `0` by
definition. -/
theorem C4_retry_merge_offsets_keys (agents : Agents) (newPlan : List PlanStep)
    (previous : ResultsMap) (s : Int) (h : s ∈ stepKeys newPlan) :
    lookupM (executeNewPlanMerged agents newPlan previous) (maxKey previous + s)
      = lookupM (runPlan agents newPlan previous).1 s := by
  unfold executeNewPlanMerged
  have hsome := runPlanAux_fst_lookup_isSome agents newPlan previous
    (stepKeys newPlan) [] s (Or.inl h)
  obtain ⟨v, hv⟩ := Option.isSome_iff_exists.mp hsome
  have hv' : lookupM (runPlan agents newPlan previous).1 s = some v := hv
  rw [hv']
  exact mergeOffset_lookup_offset _ _ _ _ _
    (runPlanAux_fst_nodup_keys agents newPlan previous _ [] (by simp)) hv

/-- C4 witness: a concrete retry plan with one step numbered 1 over a
previous map whose maximal key is 1; the merged map holds the retry results
at key 2. -/
theorem C4_retry_merge_offsets_keys_witness :
    (1 : Int) ∈ stepKeys [{ step := 1, agent := "servicenow", question := "q" }] ∧
    lookupM (executeNewPlanMerged (fun _ _ => "r")
        [{ step := 1, agent := "servicenow", question := "q" }]
        [(1, [{ agent := "servicenow", question := "q0", response := "r0" }])])
        (maxKey [(1, [{ agent := "servicenow", question := "q0", response := "r0" }])] + 1)
      = lookupM (runPlan (fun _ _ => "r")
          [{ step := 1, agent := "servicenow", question := "q" }]
          [(1, [{ agent := "servicenow", question := "q0", response := "r0" }])]).1 1 :=
  ⟨by decide, C4_retry_merge_offsets_keys _ _ _ _ (by decide)⟩

/-- C5 (counterexample): the claim asserts that the first retry step's tasks
receive the highest-numbered original step's results as their context block.
Concretely: the previous results are `{1 ↦ [r1]}` (so the highest-numbered
original step is 1) and the retry plan is a single step numbered 1. The
worker-call log of the retry run shows the task was sent its bare question
`"q2"` — the context lookup used the retry plan's own step number minus one
(key 0, absent everywhere) — and that bare message differs from the message
the claim requires (step 1's results formatted as context, then the task). -/
theorem C5_first_retry_step_empty_context :
    (runPlan (fun _ _ => "r2") [{ step := 1, agent := "servicenow", question := "q2" }]
        [(1, [{ agent := "servicenow", question := "q1", response := "r1" }])]).2
      = [{ agent := "servicenow", message := "q2" }]
    ∧ ("q2" : String) ≠ taskMessage
        (buildContext [{ agent := "servicenow", question := "q1", response := "r1" }])
        { step := 1, agent := "servicenow", question := "q2" } :=
  ⟨rfl, by decide⟩

/-- C5 (amended): during a retry execution the step numbers are NOT offset
while building context — renumbering happens only at merge time. Each retry
step `n` receives as context the results found at key `n − 1` in the retry
plan's own numbering: the retry run's earlier results at `n − 1` when
non-empty, else the previous (original-numbered) results at `n − 1`; in
particular a first retry step numbered 1 looks up key 0 and normally gets an
empty context, not the highest-numbered original step's results. -/
theorem C5_retry_context_uses_unoffset_numbering (agents : Agents)
    (newPlan : List PlanStep) (previous : ResultsMap) :
    (runPlan agents newPlan previous).2 =
      (stepKeys newPlan).flatMap (fun n =>
        (tasksFor newPlan n).map (fun t =>
          AgentCall.mk t.agent (taskMessage
            (buildContext (prevResultsFor (runPlan agents newPlan previous).1 previous
              (n - 1))) t))) :=
  runPlanAux_calls agents newPlan previous (stepKeys newPlan) [] (stepKeys_sorted newPlan)

/-- C6: for the orchestrator's initial execution of a plan, the distinct step
numbers are processed in strictly ascending order, and the worker-call log is
exactly one batch per step in that order, where each task's message is the
context block built from all of step `n − 1`'s results followed by the task's
instruction when step `n − 1` produced results, and the bare instruction
otherwise — for non-contiguous numbering, a step with no step `n − 1` finds
no entry at that key and so gets an empty context. (The retry execution,
where a previous-results map is additionally consulted, is characterized by
the C5 theorem.) -/
theorem C6_steps_ascending_context_threading (agents : Agents) (plan : List PlanStep) :
    (stepKeys plan).Sorted (· < ·) ∧
    (runPlan agents plan []).2 =
      (stepKeys plan).flatMap (fun n =>
        (tasksFor plan n).map (fun t =>
          AgentCall.mk t.agent
            (if ((lookupM (runPlan agents plan []).1 (n - 1)).getD []).isEmpty
              then t.question
              else buildContext ((lookupM (runPlan agents plan []).1 (n - 1)).getD [])
                ++ "\n\nYour task: " ++ t.question))) := by
  refine ⟨stepKeys_sorted plan, ?_⟩
  have h := runPlanAux_calls agents plan [] (stepKeys plan) [] (stepKeys_sorted plan)
  show (runPlanAux agents plan [] (stepKeys plan) []).2 = _
  rw [h]
  simp only [prevResultsFor_nil_existing, taskMessage_buildContext]
  rfl

/-- C9: merging a retry plan whose step numbers are all at least 1 never
overwrites or drops a previously recorded step's results: every key of the
previous map still looks up to exactly its old value in the merged map,
because every inserted key `maxKey previous + s` with `s ≥ 1` is strictly
greater than every existing key. -/
theorem C9_merge_preserves_previous (agents : Agents) (newPlan : List PlanStep)
    (previous : ResultsMap) (hsteps : ∀ t ∈ newPlan, 1 ≤ t.step) (k : Int)
    (hk : (lookupM previous k).isSome) :
    lookupM (executeNewPlanMerged agents newPlan previous) k = lookupM previous k := by
  unfold executeNewPlanMerged
  apply mergeOffset_lookup_preserve
  intro p hp heq
  have hmem := runPlanAux_fst_mem agents newPlan previous (stepKeys newPlan) [] p hp
  rcases hmem with hmem | hmem
  · have hstep : p.1 ∈ newPlan.map (fun t => t.step) := mem_stepKeys.mp hmem
    rcases List.mem_map.mp hstep with ⟨t, ht, hts⟩
    have h1 : 1 ≤ p.1 := hts ▸ hsteps t ht
    obtain ⟨v, hv⟩ := Option.isSome_iff_exists.mp hk
    have hk2 : k ≤ maxKey previous := maxKey_ge (lookupM_eq_some_mem hv)
    omega
  · simp at hmem

/-- C9 witness: a concrete previous map `{1 ↦ [r0], 2 ↦ [r1]}` and a retry
plan with steps 1 and 2; key 1 of the previous map is preserved exactly. -/
theorem C9_merge_preserves_previous_witness :
    (∀ t ∈ [({ step := 1, agent := "servicenow", question := "a" } : PlanStep),
            { step := 2, agent := "log_analytics", question := "b" }], (1 : Int) ≤ t.step) ∧
    (lookupM [((1 : Int), [{ agent := "servicenow", question := "q0", response := "r0" }]),
              (2, [{ agent := "log_analytics", question := "q1", response := "r1" }])] 1).isSome ∧
    lookupM (executeNewPlanMerged (fun _ _ => "r")
        [{ step := 1, agent := "servicenow", question := "a" },
         { step := 2, agent := "log_analytics", question := "b" }]
        [(1, [{ agent := "servicenow", question := "q0", response := "r0" }]),
         (2, [{ agent := "log_analytics", question := "q1", response := "r1" }])]) 1
      = lookupM [((1 : Int), [{ agent := "servicenow", question := "q0", response := "r0" }]),
                 (2, [{ agent := "log_analytics", question := "q1", response := "r1" }])] 1 :=
  ⟨by decide, by decide, C9_merge_preserves_previous _ _ _ (by decide) _ (by decide)⟩

end OpsAgent
